import Mathlib

/-!
Verification of `ostdlib` (Otto standard library, caltechlibrary/ostdlib).

This file gives a shallow embedding, in Lean 4, of the parts of
`ostdlib.go` that the specification talks about:

* the capability registry (`SetHelp` / `GetHelp`, autocompletion terms);
* the interactive shell loop (`Repl`): meta-command dispatch, the
  multi-line pending buffer, the exit paths and the deferred release of
  the line editor;
* the `os.*` host capabilities (`remove`, `rmdir`, `chmod`, `mkdir`,
  `mkdirAll`, `exit`) over a small filesystem model;
* the tabular spreadsheet bridge (`xlsx.read` / `xlsx.write`);
* the `ToStruct` export / marshal / unmarshal round trip.

Modelling conventions (each is justified at the definition it concerns):
Go strings are Lean `String`; Go byte-level prefix matching is modelled
through the character list of a string; Go maps are modelled as ordered
association lists together with, where the source ranges over a map, an
explicit iteration-order parameter (the Go language does not fix a map
iteration order); `os.Exit` is the only way a run terminates early and,
as in Go, it does not run deferred calls.
-/

namespace Ostdlib

/-! ### Go string helpers -/

/-- Model of Go `strings.HasPrefix p` / of the readline byte comparison:
`s` starts with `p` iff the character list of `p` is an initial segment of
the character list of `s`. Extensionally this is `String.startsWith`. -/
def goStarts (s p : String) : Bool :=
  p.data.isPrefixOf s.data

/-! ### Capability registry (`HelpMsg`, `SetHelp`, `GetHelp`) -/

/-- Mirrors the Go struct `HelpMsg` of `ostdlib.go` (the `xml.Name` tag
carries no data and is omitted). -/
structure HelpMsg where
  object : String
  function : String
  params : List String
  msg : String
deriving DecidableEq, Repr

/-- Mirrors the registry part of the Go struct `JavaScriptVM`: the
`AutoCompleteTerms` slice and the `Help` map.  The Go map
`map[string][]*HelpMsg` is modelled as an association list keyed by the
object name; the list order stands for the iteration order a `range`
over the map would use in a given call. -/
structure JavaScriptVM where
  autoCompleteTerms : List String
  help : List (String × List HelpMsg)
deriving DecidableEq, Repr

/-- Go map read `js.Help[objectName]`: first binding of the key, if any. -/
def helpLookup : List (String × List HelpMsg) → String → Option (List HelpMsg)
  | [], _ => none
  | (k, v) :: rest, key => if k = key then some v else helpLookup rest key

/-- Go map write `js.Help[objectName] = data` for a key already present:
replace the value at the first binding of the key. -/
def helpUpdate : List (String × List HelpMsg) → String → List HelpMsg →
    List (String × List HelpMsg)
  | [], _, _ => []
  | (k, v) :: rest, key, val =>
      if k = key then (k, val) :: rest else (k, v) :: helpUpdate rest key val

/-- The autocompletion term `SetHelp` derives from a help message:
`fmt.Sprintf` of `object.function()` when there are no parameters, and of
`object.function(p1, p2, ...)` otherwise. -/
def signatureOf (msg : HelpMsg) : String :=
  if msg.params = [] then
    msg.object ++ "." ++ msg.function ++ "()"
  else
    msg.object ++ "." ++ msg.function ++ "(" ++ String.intercalate ", " msg.params ++ ")"

/-- Model of the Go method `(js *JavaScriptVM) SetHelp`: a no-op when the
object name is empty; otherwise append one autocompletion term and append
the message to the entry list of the object (creating the binding when the
object is new). -/
def setHelp (js : JavaScriptVM) (objectName functionName : String)
    (params : List String) (text : String) : JavaScriptVM :=
  if objectName = "" then js
  else
    let msg : HelpMsg := ⟨objectName, functionName, params, text⟩
    let terms := js.autoCompleteTerms ++ [signatureOf msg]
    match helpLookup js.help objectName with
    | some data => ⟨terms, helpUpdate js.help objectName (data ++ [msg])⟩
    | none => ⟨terms, js.help ++ [(objectName, [msg])]⟩

/-- Model of the Go constructor `New`: empty help map, no terms. -/
def newVM : JavaScriptVM := ⟨[], []⟩

/-- The seven `fmt.Printf` lines for the repl dot commands that `GetHelp`
prints when the object name is empty, as pairs of the bolded token text
and the description after the tab (ANSI bold formatting elided). -/
def dotCommands : List (String × String) :=
  [(".help", "show help"),
   (".break", "break out multi-line entry without saving command"),
   (".exit", "exit repl"),
   (".list", "list history"),
   (".load FILENAME", "load history from FILENAME"),
   (".reset", "trunctate history"),
   (".save FILENAME", "save history to FILENAME")]

/-- Rendering of one dot-command line: ` TOKEN\tDESCRIPTION`. -/
def dotCommandLine (p : String × String) : String :=
  " " ++ p.1 ++ "\t" ++ p.2

/-- Model of the Go method `(js *JavaScriptVM) GetHelp` as the list of
lines it prints (one element per `fmt.Printf`/`fmt.Println` call).  When
`objectName` is empty it prints the directory of registered object names
followed by the fixed dot-command list and returns without ever reading
`functionName`; otherwise it prints the object header and, per stored
message, either the bare signature (empty `functionName`) or the
signature with docstring (matching `functionName`). -/
def getHelp (js : JavaScriptVM) (objectName functionName : String) : List String :=
  if objectName = "" then
    String.intercalate "\n   "
        ("help provides information about objects and functions" :: js.help.map Prod.fst)
      :: "Additionally the repl provide the following dot commands"
      :: dotCommands.map dotCommandLine
  else
    let base := [objectName]
    let s :=
      match helpLookup js.help objectName with
      | some topics =>
          topics.foldl (fun acc msg =>
            if functionName = "" then
              acc ++ [msg.object ++ "." ++ msg.function ++ "(" ++
                String.intercalate ", " msg.params ++ ")"]
            else if functionName = msg.function then
              acc ++ [msg.object ++ "." ++ msg.function ++ "(" ++
                String.intercalate ", " msg.params ++ ")\n    " ++ msg.msg]
            else acc) base
      | none => base
    [String.intercalate "\n  " s]

/-- Extract the dot-command token of a printed dot-command line: drop the
leading space, keep everything before the first space or tab. -/
def dotTokenOf (line : String) : String :=
  ⟨(line.data.drop 1).takeWhile (fun c => c ≠ ' ' ∧ c ≠ '\t')⟩

/-- Total number of help messages stored in the registry. -/
def totalEntries (help : List (String × List HelpMsg)) : Nat :=
  (help.map (fun p => p.2.length)).sum

/-- The entry list stored under one object (empty when absent). -/
def entriesUnder (js : JavaScriptVM) (objectName : String) : List HelpMsg :=
  (helpLookup js.help objectName).getD []

/-- One recorded `SetHelp` call. -/
structure SetHelpCall where
  obj : String
  fn : String
  params : List String
  text : String
deriving DecidableEq, Repr

/-- Apply a sequence of `SetHelp` calls to the fresh registry of `New`. -/
def applyCalls (calls : List SetHelpCall) : JavaScriptVM :=
  calls.foldl (fun js c => setHelp js c.obj c.fn c.params c.text) newVM

/-- The message a non-empty-named `SetHelp` call stores. -/
def msgOfCall (c : SetHelpCall) : HelpMsg :=
  ⟨c.obj, c.fn, c.params, c.text⟩

/-! ### Interactive shell loop (`Repl`)

The Go `Repl` reads lines until `rl.Readline` fails (end of input or
interrupt), dispatching each line through a `switch` whose cases are, in
source order: `strings.HasPrefix` tests for `.help`, `.list`, `.load`,
`.reset`, `.save`, `.exit`, an equality test for `.break`, and a default
case that appends the line to the pending `cmds` buffer and compiles the
joined buffer.  The model below projects the loop onto the pending
buffer, the saved history, and the two termination paths; the printed
output and the history-file manipulations of `.list` / `.load` /
`.reset` / `.save` are not modelled (no claim concerns them), but those
four cases, like `.help`, leave the `cmds` buffer and the loop state
untouched, exactly as in the source.  `defer rl.Close()` is modelled by
the `lineEditorClosed` flag of the outcome: in Go a deferred call runs
when `Repl` returns (the loop `break` path) and does not run when the
process terminates through `os.Exit` (the `.exit` case). -/

/-- The eight arms of the `Repl` dispatch `switch`, in source order. -/
inductive Dispatch where
  | helpCmd | listCmd | loadCmd | resetCmd | saveCmd | exitCmd | breakCmd | scriptLine
deriving DecidableEq, Repr

/-- The `Repl` `switch`: the first matching case wins.  The first six
cases match by `strings.HasPrefix`; `.break` matches only the exact
line; everything else is script input. -/
def dispatch (line : String) : Dispatch :=
  if goStarts line ".help" then .helpCmd
  else if goStarts line ".list" then .listCmd
  else if goStarts line ".load" then .loadCmd
  else if goStarts line ".reset" then .resetCmd
  else if goStarts line ".save" then .saveCmd
  else if goStarts line ".exit" then .exitCmd
  else if line = ".break" then .breakCmd
  else .scriptLine

/-- Shell session state: the pending multi-line buffer `cmds` and the
commands saved to history by `rl.SaveHistory` on successful compiles. -/
structure ReplState where
  cmds : List String
  history : List String
deriving DecidableEq, Repr

/-- Result of processing one input line. -/
inductive StepResult where
  /-- the loop continues with this state -/
  | went (st : ReplState)
  /-- ran `os.Exit code`: the process terminates at once, deferred calls
  (in particular `rl.Close()`) do not run -/
  | exited (code : Nat)
deriving DecidableEq, Repr

/-- One iteration of the `Repl` loop body on one input line.  `compiles`
is the guest engine compile oracle (`js.VM.Compile` succeeding or not on
the joined buffer text).  The meta-command cases never touch `cmds`;
`.exit` runs `os.Exit(0)`; `.break` clears the buffer; the default case
appends the line, joins the buffer with single spaces, and on a
successful compile saves the joined text to history and clears the
buffer, otherwise keeps the grown buffer. -/
def replStep (compiles : String → Bool) (st : ReplState) (line : String) : StepResult :=
  match dispatch line with
  | .helpCmd => .went st
  | .listCmd => .went st
  | .loadCmd => .went st
  | .resetCmd => .went st
  | .saveCmd => .went st
  | .exitCmd => .exited 0
  | .breakCmd => .went { st with cmds := [] }
  | .scriptLine =>
      let cmds := st.cmds ++ [line]
      let joined := String.intercalate " " cmds
      if compiles joined then
        .went { cmds := [], history := st.history ++ [joined] }
      else
        .went { st with cmds := cmds }

/-- Outcome of a whole `Repl` run over a finite input stream. -/
structure ReplOutcome where
  /-- value `none`: the input ended (EOF or interrupt) and the loop broke;
  `some code`: `os.Exit code` terminated the process mid-loop -/
  exitKind : Option Nat
  /-- the session state when the run ended -/
  finalState : ReplState
  /-- whether the deferred `rl.Close()` ran before the process ended -/
  lineEditorClosed : Bool
deriving DecidableEq, Repr

/-- Run the `Repl` loop on a list of input lines.  An exhausted list
models `rl.Readline` returning an error (end of input or interrupt): the
loop breaks, `Repl` returns, and the deferred `rl.Close()` runs.  A step
that reaches `os.Exit` ends the process immediately, skipping the
deferred close. -/
def replRun (compiles : String → Bool) : ReplState → List String → ReplOutcome
  | st, [] => ⟨none, st, true⟩
  | st, line :: rest =>
      match replStep compiles st line with
      | .went st2 => replRun compiles st2 rest
      | .exited code => ⟨some code, st, false⟩

/-- The state `Repl` starts in: empty buffer, empty history. -/
def replInit : ReplState := ⟨[], []⟩

/-! ### Filesystem model and the `os.*` capabilities

The `os.*` closures installed by `AddExtensions` act on the host
filesystem through `os.Open` / `Stat` / `Remove` / `Chmod` / `Mkdir` /
`MkdirAll`.  The filesystem is modelled as an association list from path
strings to entries carrying a kind (file or directory) and a numeric
mode; `os.Open` failing on a missing path, `stat.IsDir()`, and the
mutations are modelled directly.  Failure modes the claims do not reach
(permission errors, missing parent directories for `Mkdir`, the
intermediate directories `MkdirAll` would create) are elided; every
elided failure in Go returns an error object and leaves the filesystem
unchanged, exactly like the modelled ones. -/

/-- Kind of a filesystem entry. -/
inductive EntryKind where
  | file | dir
deriving DecidableEq, Repr

/-- One filesystem entry: its kind and its numeric mode bits
(`os.FileMode` is a `uint32`; only the numeric value matters here). -/
structure FsEntry where
  kind : EntryKind
  mode : Nat
deriving DecidableEq, Repr

/-- The filesystem: an association list from path to entry. -/
abbrev Fs : Type := List (String × FsEntry)

/-- Path lookup (`os.Open` + `Stat` succeed iff this is `some`). -/
def fsLookup : Fs → String → Option FsEntry
  | [], _ => none
  | (p, e) :: rest, q => if p = q then some e else fsLookup rest q

/-- Remove the entry at a path. -/
def fsDelete : Fs → String → Fs
  | [], _ => []
  | (p, e) :: rest, q => if p = q then rest else (p, e) :: fsDelete rest q

/-- Replace the entry at a path. -/
def fsUpdate : Fs → String → FsEntry → Fs
  | [], _, _ => []
  | (p, e) :: rest, q, f => if p = q then (q, f) :: rest else (p, e) :: fsUpdate rest q f

/-- Whether a directory still has entries under it (Go `os.Remove` fails
on a non-empty directory).  A child is any entry whose path extends the
directory path followed by a separator. -/
def hasChild (fs : Fs) (p : String) : Bool :=
  fs.any (fun q => goStarts q.1 (p ++ "/"))

/-- The value a capability closure hands back to the guest engine, as
far as the claims observe it: a boolean, or the
`(status: "error", error: message)` object built by `errorObject` (the
formatted message text and the log line are elided). -/
inductive JsResult where
  | boolVal (b : Bool)
  | errObj
deriving DecidableEq, Repr

/-- Model of the `os.remove` closure: open the path (error object when it
does not exist), start from result `false`, and only when the entry is
not a directory remove it and return `true`.  A directory is never
removed and yields plain `false`. -/
def osRemove (fs : Fs) (pathname : String) : JsResult × Fs :=
  match fsLookup fs pathname with
  | none => (.errObj, fs)
  | some entry =>
      if entry.kind = .dir then (.boolVal false, fs)
      else (.boolVal true, fsDelete fs pathname)

/-- Model of the `os.rmdir` closure: open the path (error object when it
does not exist), start from result `false`, and only when the entry is a
directory call `os.Remove` on it — which fails (error object) when the
directory is non-empty and removes it otherwise.  A plain file is never
removed and yields plain `false`. -/
def osRmdir (fs : Fs) (pathname : String) : JsResult × Fs :=
  match fsLookup fs pathname with
  | none => (.errObj, fs)
  | some entry =>
      if entry.kind = .dir then
        if hasChild fs pathname then (.errObj, fs)
        else (.boolVal true, fsDelete fs pathname)
      else (.boolVal false, fs)

/-- Go `strconv.ParseUint(s, 10, 32)` as the `os.chmod` / `os.mkdir` /
`os.mkdirAll` closures use it: `some` of the decimal value when `s` is a
non-empty string of decimal digits whose value fits in 32 bits, `none`
otherwise (no sign, no other base, and — as the closures only test
`err != nil` — the clamped value `ParseUint` also returns on range
overflow is irrelevant and folded into `none`). -/
def parseUint10x32 (s : String) : Option Nat :=
  if s.data ≠ [] ∧ s.data.all (fun c => c.isDigit) then
    let v := s.data.foldl (fun acc c => acc * 10 + (c.toNat - '0'.toNat)) 0
    if v < 2 ^ 32 then some v else none
  else none

/-- Model of the `os.chmod` closure: open the file first (error object
when it does not exist), then parse the permission string in base 10
(error object on parse failure, filesystem untouched), then set the mode
to the parsed numeric value. -/
def osChmod (fs : Fs) (filename perms : String) : JsResult × Fs :=
  match fsLookup fs filename with
  | none => (.errObj, fs)
  | some entry =>
      match parseUint10x32 perms with
      | none => (.errObj, fs)
      | some perm => (.boolVal true, fsUpdate fs filename ⟨entry.kind, perm⟩)

/-- Model of the `os.mkdir` closure: parse the permission string in base
10 first (error object on failure, filesystem untouched), then create
the directory with the parsed mode; `os.Mkdir` fails when the path
already exists. -/
def osMkdir (fs : Fs) (newpath perms : String) : JsResult × Fs :=
  match parseUint10x32 perms with
  | none => (.errObj, fs)
  | some perm =>
      match fsLookup fs newpath with
      | some _ => (.errObj, fs)
      | none => (.boolVal true, fs ++ [(newpath, ⟨.dir, perm⟩)])

/-- Model of the `os.mkdirAll` closure: parse the permission string in
base 10 first (error object on failure, filesystem untouched), then
`os.MkdirAll`: success without change when the path is already a
directory, error when it is a plain file, creation with the parsed mode
otherwise. -/
def osMkdirAll (fs : Fs) (newpath perms : String) : JsResult × Fs :=
  match parseUint10x32 perms with
  | none => (.errObj, fs)
  | some perm =>
      match fsLookup fs newpath with
      | some entry =>
          if entry.kind = .dir then (.boolVal true, fs) else (.errObj, fs)
      | none => (.boolVal true, fs ++ [(newpath, ⟨.dir, perm⟩)])

/-! ### `os.exit` and Go `strconv.Atoi` -/

/-- The two error kinds `strconv.Atoi` can report. -/
inductive AtoiError where
  | errSyn | errRange
deriving DecidableEq, Repr

/-- Decimal value of a digit list, `none` when empty or a non-digit
appears. -/
def digitsVal (ds : List Char) : Option Nat :=
  if ds ≠ [] ∧ ds.all (fun c => c.isDigit) then
    some (ds.foldl (fun acc c => acc * 10 + (c.toNat - '0'.toNat)) 0)
  else none

/-- Value and error of a decimal numeral after the sign has been split
off: a syntactically invalid digit part returns value `0` with a syntax
error; a magnitude that overflows the signed 64-bit range returns the
clamped extreme with a range error. -/
def atoiSigned (neg : Bool) (ds : List Char) : Int × Option AtoiError :=
  match digitsVal ds with
  | none => (0, some .errSyn)
  | some n =>
      if neg then
        if (n : Int) > 2 ^ 63 then (-(2 ^ 63), some .errRange)
        else (-(n : Int), none)
      else
        if (n : Int) > 2 ^ 63 - 1 then (2 ^ 63 - 1, some .errRange)
        else ((n : Int), none)

/-- Go `strconv.Atoi` (that is, `ParseInt(s, 10, 0)` on a 64-bit host):
the returned `int` value together with the error, if any.  An optional
single leading sign, then decimal digits. -/
def goAtoi (s : String) : Int × Option AtoiError :=
  match s.data with
  | [] => atoiSigned false []
  | c :: rest =>
      if c = '-' then atoiSigned true rest
      else if c = '+' then atoiSigned false rest
      else atoiSigned false (c :: rest)

/-- Model of the `os.exit` closure: with no argument the exit code stays
`0`; otherwise the first argument (already stringified by the engine) is
fed to `strconv.Atoi` and the error is discarded with `_`, so the code
passed to `os.Exit` is whatever value `Atoi` returned beside the error.
The closure never builds an error object and always reaches `os.Exit`,
so its one observable outcome is the exit code. -/
def osExitCode (args : List String) : Int :=
  match args with
  | [] => 0
  | a :: _ => (goAtoi a).1

/-! ### Tabular spreadsheet bridge (`xlsx.read` / `xlsx.write`)

A workbook file is modelled as its ordered sheet list: sheet name paired
with rows of cell display strings (the `cell.String()` coercion that
`xlsx.read` applies is absorbed by taking cells to be strings already).
`xlsx.read` walks `xlWorkbook.Sheets` in file order, emits a JavaScript
object literal whose keys appear in that order, and evaluates it; the
resulting guest object is modelled as the same ordered association list.
`xlsx.write` exports the guest object with `Export()` into a Go
`map[string]interface{}` and then ranges over that map; the Go language
leaves map iteration order unspecified, so the model takes the iteration
order the runtime happens to use as an explicit argument (any
permutation of the keys is a legal order), adds one sheet per key in
that order, and saves.  Reading the saved file returns its sheets in the
order they were added. -/

/-- Sheet contents: rows of cell strings. -/
abbrev Sheet : Type := List (List String)

/-- A workbook file and likewise the guest tabular value: sheet names in
order, each with its rows. -/
abbrev Tabular : Type := List (String × Sheet)

/-- Lookup of one sheet by name in a tabular value. -/
def tabLookup : Tabular → String → Option Sheet
  | [], _ => none
  | (k, v) :: rest, key => if k = key then some v else tabLookup rest key

/-- The sheet names of a tabular value, in order. -/
def sheetNames (t : Tabular) : List String :=
  t.map Prod.fst

/-- Model of the `xlsx.read` closure on an already-decoded workbook
file: the object literal it builds and evaluates binds the sheet names
in file order to their rows, so on this representation the read is the
identity. -/
def xlsxRead (wb : Tabular) : Tabular := wb

/-- Model of the `xlsx.write` closure: `order` is the iteration order
the Go runtime uses for the `range` over the exported
`map[string]interface{}` (a permutation of the keys of the guest
value).  One sheet is added per key, in iteration order, with the rows
of that key; the saved file lists the sheets in the order they were
added. -/
def xlsxWrite (order : List String) (data : Tabular) : Tabular :=
  order.filterMap (fun k => (tabLookup data k).map (fun rows => (k, rows)))

/-! ### `ToStruct` and the canonical interchange encoding

`ToStruct` exports a guest value to a Go `interface{}` tree, marshals
that tree to JSON, and unmarshals the JSON into the caller's struct.
The tree is modelled as `JsonVal` (numbers as rationals: guest numbers
are IEEE doubles, every one of which is a rational that Go marshals and
re-parses exactly).  The target record shape is the one the package's
own test exercises — one field of each claimed kind: integer, string,
float, boolean, array of integers.  Marshal-then-unmarshal of the tree
into the record is modelled at the tree level — the JSON text codec of
the Go standard library transports the tree faithfully — as lookup of
each field key followed by the decode Go `encoding/json` applies to the
target field type (a number decodes into an integer field only when it
has no fractional part). -/

/-- The canonical interchange tree: JSON values. -/
inductive JsonVal where
  | jnull
  | jbool (b : Bool)
  | jnum (q : ℚ)
  | jstr (s : String)
  | jarr (xs : List JsonVal)
  | jobj (fields : List (String × JsonVal))

/-- Field lookup in an object tree. -/
def objLookup : List (String × JsonVal) → String → Option JsonVal
  | [], _ => none
  | (k, v) :: rest, key => if k = key then some v else objLookup rest key

/-- Decode into an integer field: a JSON number with no fractional
part. -/
def asInt : JsonVal → Option Int
  | .jnum q => if q.den = 1 then some q.num else none
  | _ => none

/-- Decode into a string field. -/
def asStr : JsonVal → Option String
  | .jstr s => some s
  | _ => none

/-- Decode into a float field. -/
def asNum : JsonVal → Option ℚ
  | .jnum q => some q
  | _ => none

/-- Decode into a boolean field. -/
def asBool : JsonVal → Option Bool
  | .jbool b => some b
  | _ => none

/-- Decode a JSON array element list into integers, failing on the
first element that is not an integral number. -/
def intListOf : List JsonVal → Option (List Int)
  | [] => some []
  | v :: rest =>
      match asInt v, intListOf rest with
      | some n, some ns => some (n :: ns)
      | _, _ => none

/-- Decode into an integer-array field. -/
def asIntList : JsonVal → Option (List Int)
  | .jarr xs => intListOf xs
  | _ => none

/-- A host record of the shape the package test `TestToStructValue`
uses: one field per claimed kind. -/
structure SampleRecord where
  one : Int
  two : String
  three : ℚ
  four : List Int
  five : Bool
deriving DecidableEq, Repr

/-- The guest-engine value of a script expression denoting a
`SampleRecord` — the object the engine builds from evaluating the record
literal — already exported to the canonical tree (`Export` resolves the
object to a key/value mapping and the arrays to ordered sequences). -/
def engineValueOf (r : SampleRecord) : JsonVal :=
  .jobj [("one", .jnum (r.one : ℚ)),
         ("two", .jstr r.two),
         ("three", .jnum r.three),
         ("four", .jarr (r.four.map (fun n : Int => .jnum (n : ℚ)))),
         ("five", .jbool r.five)]

/-- Model of `ToStruct` into a `SampleRecord`-shaped target: export (the
tree itself), marshal to JSON and unmarshal into the record — field
lookup by JSON name with the per-type decode; `none` is the error
return. -/
def toStructSample (v : JsonVal) : Option SampleRecord :=
  match v with
  | .jobj fields => do
      let one ← (objLookup fields "one").bind asInt
      let two ← (objLookup fields "two").bind asStr
      let three ← (objLookup fields "three").bind asNum
      let four ← (objLookup fields "four").bind asIntList
      let five ← (objLookup fields "five").bind asBool
      pure ⟨one, two, three, four, five⟩
  | _ => none

/-! ### Concrete fixtures used by witnesses and counterexamples -/

/-- A two-sheet workbook file with sheets named Sheet1 and Sheet2. -/
def wb2 : Tabular := [("Sheet1", [["a"]]), ("Sheet2", [["b"]])]

/-- A small filesystem holding one plain file and one directory. -/
def fs0 : Fs := [("notes.txt", ⟨.file, 644⟩), ("archive", ⟨.dir, 755⟩)]

/-- A sample registration sequence: two entries under `os`, one empty
no-op call, one entry under `http`. -/
def demoCalls : List SetHelpCall :=
  [⟨"os", "args", [], "command line arguments"⟩,
   ⟨"", "ignored", [], "defensive no-op"⟩,
   ⟨"os", "exit", ["exitCode int"], "stop the program"⟩,
   ⟨"http", "get", ["uri string"], "synchronous GET"⟩]

/-! ### Helper lemmas on Go prefix matching -/

/-- A character list is an initial segment of itself followed by
anything. -/
theorem isPrefixOf_append_self (p l : List Char) : p.isPrefixOf (p ++ l) = true := by
  induction p with
  | nil => simp [List.isPrefixOf]
  | cons c cs ih => simp [List.isPrefixOf, ih]

/-- Matching `goStarts` holds between a string extended by any suffix and
the string itself. -/
theorem goStarts_self (p s : String) : goStarts (p ++ s) p = true := by
  unfold goStarts
  rw [String.data_append]
  exact isPrefixOf_append_self p.data s.data

/-- After a shared prefix, a character mismatch defeats `isPrefixOf`
however the longer list continues. -/
theorem isPrefixOf_false_aux (pre : List Char) (c d : Char) (ps xs : List Char)
    (h : (c == d) = false) :
    List.isPrefixOf (pre ++ c :: ps) (pre ++ d :: xs) = false := by
  induction pre with
  | nil => simp [List.isPrefixOf, h]
  | cons a as ih => simp [List.isPrefixOf, ih]

/-- Matching `goStarts` fails between an extended string and a candidate
token when the two disagree at a character inside the token. -/
theorem goStarts_false_of (p x s : String) (pre : List Char) (c d : Char)
    (ps xs : List Char) (hp : p.data = pre ++ c :: ps) (hx : x.data = pre ++ d :: xs)
    (h : (c == d) = false) : goStarts (x ++ s) p = false := by
  unfold goStarts
  rw [String.data_append, hp, hx, List.append_assoc]
  exact isPrefixOf_false_aux pre c d ps (xs ++ s.data) h

/-- Any line extending `.help` hits the first `switch` case. -/
theorem dispatch_help_any (s : String) : dispatch (".help" ++ s) = .helpCmd := by
  have h1 : goStarts (".help" ++ s) ".help" = true := goStarts_self _ _
  simp [dispatch, h1]

/-- Any line extending `.list` hits the `.list` case. -/
theorem dispatch_list_any (s : String) : dispatch (".list" ++ s) = .listCmd := by
  have h1 : goStarts (".list" ++ s) ".help" = false :=
    goStarts_false_of _ _ _ ['.'] 'h' 'l' ['e', 'l', 'p'] ['i', 's', 't'] rfl rfl (by decide)
  have h2 : goStarts (".list" ++ s) ".list" = true := goStarts_self _ _
  simp [dispatch, h1, h2]

/-- Any line extending `.load` hits the `.load` case. -/
theorem dispatch_load_any (s : String) : dispatch (".load" ++ s) = .loadCmd := by
  have h1 : goStarts (".load" ++ s) ".help" = false :=
    goStarts_false_of _ _ _ ['.'] 'h' 'l' ['e', 'l', 'p'] ['o', 'a', 'd'] rfl rfl (by decide)
  have h2 : goStarts (".load" ++ s) ".list" = false :=
    goStarts_false_of _ _ _ ['.', 'l'] 'i' 'o' ['s', 't'] ['a', 'd'] rfl rfl (by decide)
  have h3 : goStarts (".load" ++ s) ".load" = true := goStarts_self _ _
  simp [dispatch, h1, h2, h3]

/-- Any line extending `.reset` hits the `.reset` case. -/
theorem dispatch_reset_any (s : String) : dispatch (".reset" ++ s) = .resetCmd := by
  have h1 : goStarts (".reset" ++ s) ".help" = false :=
    goStarts_false_of _ _ _ ['.'] 'h' 'r' ['e', 'l', 'p'] ['e', 's', 'e', 't'] rfl rfl (by decide)
  have h2 : goStarts (".reset" ++ s) ".list" = false :=
    goStarts_false_of _ _ _ ['.'] 'l' 'r' ['i', 's', 't'] ['e', 's', 'e', 't'] rfl rfl (by decide)
  have h3 : goStarts (".reset" ++ s) ".load" = false :=
    goStarts_false_of _ _ _ ['.'] 'l' 'r' ['o', 'a', 'd'] ['e', 's', 'e', 't'] rfl rfl (by decide)
  have h4 : goStarts (".reset" ++ s) ".reset" = true := goStarts_self _ _
  simp [dispatch, h1, h2, h3, h4]

/-- Any line extending `.save` hits the `.save` case. -/
theorem dispatch_save_any (s : String) : dispatch (".save" ++ s) = .saveCmd := by
  have h1 : goStarts (".save" ++ s) ".help" = false :=
    goStarts_false_of _ _ _ ['.'] 'h' 's' ['e', 'l', 'p'] ['a', 'v', 'e'] rfl rfl (by decide)
  have h2 : goStarts (".save" ++ s) ".list" = false :=
    goStarts_false_of _ _ _ ['.'] 'l' 's' ['i', 's', 't'] ['a', 'v', 'e'] rfl rfl (by decide)
  have h3 : goStarts (".save" ++ s) ".load" = false :=
    goStarts_false_of _ _ _ ['.'] 'l' 's' ['o', 'a', 'd'] ['a', 'v', 'e'] rfl rfl (by decide)
  have h4 : goStarts (".save" ++ s) ".reset" = false :=
    goStarts_false_of _ _ _ ['.'] 'r' 's' ['e', 's', 'e', 't'] ['a', 'v', 'e'] rfl rfl (by decide)
  have h5 : goStarts (".save" ++ s) ".save" = true := goStarts_self _ _
  simp [dispatch, h1, h2, h3, h4, h5]

/-- Any line extending `.exit` hits the `.exit` case. -/
theorem dispatch_exit_any (s : String) : dispatch (".exit" ++ s) = .exitCmd := by
  have h1 : goStarts (".exit" ++ s) ".help" = false :=
    goStarts_false_of _ _ _ ['.'] 'h' 'e' ['e', 'l', 'p'] ['x', 'i', 't'] rfl rfl (by decide)
  have h2 : goStarts (".exit" ++ s) ".list" = false :=
    goStarts_false_of _ _ _ ['.'] 'l' 'e' ['i', 's', 't'] ['x', 'i', 't'] rfl rfl (by decide)
  have h3 : goStarts (".exit" ++ s) ".load" = false :=
    goStarts_false_of _ _ _ ['.'] 'l' 'e' ['o', 'a', 'd'] ['x', 'i', 't'] rfl rfl (by decide)
  have h4 : goStarts (".exit" ++ s) ".reset" = false :=
    goStarts_false_of _ _ _ ['.'] 'r' 'e' ['e', 's', 'e', 't'] ['x', 'i', 't'] rfl rfl (by decide)
  have h5 : goStarts (".exit" ++ s) ".save" = false :=
    goStarts_false_of _ _ _ ['.'] 's' 'e' ['a', 'v', 'e'] ['x', 'i', 't'] rfl rfl (by decide)
  have h6 : goStarts (".exit" ++ s) ".exit" = true := goStarts_self _ _
  simp [dispatch, h1, h2, h3, h4, h5, h6]

/-- The `.break` case is an equality test reached only after all the
`HasPrefix` cases failed, so it fires exactly on the bare line. -/
theorem dispatch_break_iff (l : String) : dispatch l = .breakCmd ↔ l = ".break" := by
  constructor
  · intro h
    unfold dispatch at h
    split_ifs at h
    all_goals simp_all
  · intro h
    subst h
    decide

/-! ### Claim theorems for the shell loop -/

/-- Claim C9 (confirmed): shell meta-command dispatch for `.help`,
`.list`, `.load`, `.reset`, `.save` and `.exit` matches by string prefix
with no word boundary — every line extending one of these tokens is
dispatched as that meta-command, and in particular the line `.exitnow`
terminates the process with status 0 — whereas `.break` is dispatched
exactly when the line is the bare string `.break`. -/
theorem c9_dispatch_by_string_prefix :
    (∀ s : String, dispatch (".help" ++ s) = .helpCmd) ∧
    (∀ s : String, dispatch (".list" ++ s) = .listCmd) ∧
    (∀ s : String, dispatch (".load" ++ s) = .loadCmd) ∧
    (∀ s : String, dispatch (".reset" ++ s) = .resetCmd) ∧
    (∀ s : String, dispatch (".save" ++ s) = .saveCmd) ∧
    (∀ s : String, dispatch (".exit" ++ s) = .exitCmd) ∧
    replRun (fun _ => false) replInit [".exitnow"] = ⟨some 0, replInit, false⟩ ∧
    (∀ l : String, dispatch l = .breakCmd ↔ l = ".break") :=
  ⟨dispatch_help_any, dispatch_list_any, dispatch_load_any, dispatch_reset_any,
    dispatch_save_any, dispatch_exit_any, by decide, dispatch_break_iff⟩

/-- Claim C1 (refuted): the claim says a line beginning with a
meta-command token read while the pending buffer is non-empty
(Continuation state) is never dispatched as a meta-command and is
appended to the buffer instead.  In the code the dispatch `switch` runs
before the buffer is consulted: with the pending buffer `["var x ="]`,
the line `.help` is dispatched as the `.help` meta-command and the
buffer stays `["var x ="]` — it is not appended. -/
theorem c1_meta_in_continuation_counterexample :
    dispatch ".help" = .helpCmd ∧
    replStep (fun _ => false) ⟨["var x ="], []⟩ ".help" = .went ⟨["var x ="], []⟩ ∧
    replStep (fun _ => false) ⟨["var x ="], []⟩ ".help" ≠ .went ⟨["var x =", ".help"], []⟩ := by
  decide

/-- Claim C1 as amended: meta-commands are recognized in every state —
whatever the pending buffer holds, a line whose dispatch is `.help`,
`.list`, `.load`, `.reset` or `.save` is handled as that meta-command
and leaves the session state (in particular the buffer) unchanged, and a
line whose dispatch is `.exit` terminates the process; no such line is
appended to the buffer. -/
theorem c1_meta_recognized_in_every_state :
    ∀ (compiles : String → Bool) (st : ReplState) (line : String),
    (dispatch line = .helpCmd ∨ dispatch line = .listCmd ∨ dispatch line = .loadCmd ∨
        dispatch line = .resetCmd ∨ dispatch line = .saveCmd →
      replStep compiles st line = .went st) ∧
    (dispatch line = .exitCmd → replStep compiles st line = .exited 0) := by
  intro compiles st line
  constructor
  · intro h
    rcases h with h | h | h | h | h <;> simp [replStep, h]
  · intro h
    simp [replStep, h]

/-- Witness for the amended claim C1: with the buffer `["var x ="]`
pending, the line `.list` is handled as the `.list` meta-command and the
buffer is untouched. -/
theorem c1_meta_recognized_in_every_state_witness :
    replStep (fun _ => false) ⟨["var x ="], []⟩ ".list" = .went ⟨["var x ="], []⟩ :=
  (c1_meta_recognized_in_every_state (fun _ => false) ⟨["var x ="], []⟩ ".list").1
    (Or.inr (Or.inl (by decide)))

/-- Claim C3 (refuted): the claim says the line editor resources are
released on every exit path of the shell loop.  On the `.exit` path the
code calls `os.Exit(0)`, which terminates the process without running
the deferred `rl.Close()`: the run over the single input line `.exit`
ends with exit status 0 and the line editor never closed. -/
theorem c3_exit_path_counterexample :
    (replRun (fun _ => true) replInit [".exit"]).exitKind = some 0 ∧
    (replRun (fun _ => true) replInit [".exit"]).lineEditorClosed = false := by
  decide

/-- Claim C3 as amended: the deferred release of the line editor runs on
exactly the exit paths that leave the loop by a failed read — end of
input or interrupt; a path that terminates through `os.Exit` (the
`.exit` meta-command) skips the deferred release. -/
theorem c3_close_on_loop_exit_paths :
    ∀ (compiles : String → Bool) (st : ReplState) (lines : List String),
    ((replRun compiles st lines).exitKind = none →
      (replRun compiles st lines).lineEditorClosed = true) ∧
    (∀ c : Nat, (replRun compiles st lines).exitKind = some c →
      (replRun compiles st lines).lineEditorClosed = false) := by
  intro compiles st lines
  induction lines generalizing st with
  | nil => exact ⟨fun _ => rfl, fun c h => by simp [replRun] at h⟩
  | cons line rest ih =>
    cases hstep : replStep compiles st line with
    | went st2 =>
        have heq : replRun compiles st (line :: rest) = replRun compiles st2 rest := by
          simp [replRun, hstep]
        rw [heq]
        exact ih st2
    | exited code =>
        have heq : replRun compiles st (line :: rest) = ⟨some code, st, false⟩ := by
          simp [replRun, hstep]
        rw [heq]
        exact ⟨fun h => by simp at h, fun c h => rfl⟩

/-- Witness for the amended claim C3: a session whose input stream ends
after one ordinary line terminates by end of input with the line editor
closed. -/
theorem c3_close_on_loop_exit_paths_witness :
    (replRun (fun _ => true) replInit ["1 + 1"]).lineEditorClosed = true :=
  (c3_close_on_loop_exit_paths (fun _ => true) replInit ["1 + 1"]).1 (by decide)

/-! ### Claim theorems for the capability registry -/

/-- Claim C5 (confirmed): `GetHelp` with an empty object name never
consults the function name — the printed output is the same function of
the registry state for every function-name argument — and on a fresh
registry with zero registered capabilities the directory output is
non-empty and its dot-command lines name exactly the fixed meta-command
set. -/
theorem c5_gethelp_empty_object_directory :
    (∀ (js : JavaScriptVM) (f g : String), getHelp js "" f = getHelp js "" g) ∧
    getHelp newVM "" "" ≠ [] ∧
    ((getHelp newVM "" "").drop 2).map dotTokenOf =
      [".help", ".break", ".exit", ".list", ".load", ".reset", ".save"] :=
  ⟨fun _ _ _ => rfl, by decide, by decide⟩

/-- Total entry count distributes over a cons cell of the help map. -/
theorem totalEntries_cons (k : String) (v : List HelpMsg)
    (rest : List (String × List HelpMsg)) :
    totalEntries ((k, v) :: rest) = v.length + totalEntries rest := by
  simp [totalEntries]

/-- Total entry count distributes over appending help maps. -/
theorem totalEntries_append (a b : List (String × List HelpMsg)) :
    totalEntries (a ++ b) = totalEntries a + totalEntries b := by
  simp [totalEntries]

/-- Replacing the stored list of a present key with one more message
raises the total entry count by one. -/
theorem totalEntries_update (help : List (String × List HelpMsg)) (key : String)
    (data : List HelpMsg) (msg : HelpMsg) (h : helpLookup help key = some data) :
    totalEntries (helpUpdate help key (data ++ [msg])) = totalEntries help + 1 := by
  induction help with
  | nil => simp [helpLookup] at h
  | cons kv rest ih =>
      obtain ⟨k, v⟩ := kv
      by_cases hk : k = key
      · subst hk
        simp [helpLookup] at h
        subst h
        simp [helpUpdate, totalEntries_cons]
        omega
      · simp [helpLookup, hk] at h
        simp [helpUpdate, hk, totalEntries_cons, ih h]
        omega

/-- Calling `SetHelp` grows the autocompletion term list by one exactly
when the object name is non-empty. -/
theorem setHelp_terms_length (js : JavaScriptVM) (o f : String) (p : List String)
    (t : String) :
    (setHelp js o f p t).autoCompleteTerms.length
      = js.autoCompleteTerms.length + (if o = "" then 0 else 1) := by
  unfold setHelp
  split_ifs with h
  · simp
  · cases hl : helpLookup js.help o <;> simp [hl]

/-- Calling `SetHelp` grows the total entry count by one exactly when the
object name is non-empty. -/
theorem setHelp_totalEntries (js : JavaScriptVM) (o f : String) (p : List String)
    (t : String) :
    totalEntries (setHelp js o f p t).help
      = totalEntries js.help + (if o = "" then 0 else 1) := by
  unfold setHelp
  split_ifs with h
  · simp
  · cases hl : helpLookup js.help o with
    | some data => simp [hl, totalEntries_update js.help o data _ hl]
    | none => simp [hl, totalEntries_append, totalEntries_cons, totalEntries]

/-- The term-count invariant is preserved along any fold of `SetHelp`
calls. -/
theorem foldl_terms_invariant (calls : List SetHelpCall) (js : JavaScriptVM)
    (h : js.autoCompleteTerms.length = totalEntries js.help) :
    (calls.foldl (fun a c => setHelp a c.obj c.fn c.params c.text) js).autoCompleteTerms.length
      = totalEntries (calls.foldl (fun a c => setHelp a c.obj c.fn c.params c.text) js).help := by
  induction calls generalizing js with
  | nil => exact h
  | cons c rest ih =>
      apply ih
      rw [setHelp_terms_length, setHelp_totalEntries, h]

/-- Updating a present key makes lookup of that key return the new
value. -/
theorem helpLookup_update_self (h : List (String × List HelpMsg)) (key : String)
    (val : List HelpMsg) (hk : (helpLookup h key).isSome) :
    helpLookup (helpUpdate h key val) key = some val := by
  induction h with
  | nil => simp [helpLookup] at hk
  | cons kv rest ih =>
      obtain ⟨k, v⟩ := kv
      by_cases hkey : k = key
      · subst hkey
        simp [helpUpdate, helpLookup]
      · simp [helpUpdate, helpLookup, hkey] at hk ⊢
        exact ih hk

/-- Updating one key leaves lookups of other keys unchanged. -/
theorem helpLookup_update_other (h : List (String × List HelpMsg)) (key : String)
    (val : List HelpMsg) (obj : String) (hne : key ≠ obj) :
    helpLookup (helpUpdate h key val) obj = helpLookup h obj := by
  induction h with
  | nil => simp [helpUpdate, helpLookup]
  | cons kv rest ih =>
      obtain ⟨k, v⟩ := kv
      by_cases hkey : k = key
      · subst hkey
        simp [helpUpdate, helpLookup, hne, ih]
      · simp [helpUpdate, helpLookup, hkey, ih]

/-- Lookup over an appended help map takes the first map's binding when
present. -/
theorem helpLookup_append (h1 h2 : List (String × List HelpMsg)) (obj : String) :
    helpLookup (h1 ++ h2) obj =
      match helpLookup h1 obj with
      | some v => some v
      | none => helpLookup h2 obj := by
  induction h1 with
  | nil => simp [helpLookup]
  | cons kv rest ih =>
      obtain ⟨k, v⟩ := kv
      by_cases hk : k = obj
      · simp [helpLookup, hk]
      · simp [helpLookup, hk, ih]

/-- One `SetHelp` call appends its message to the entries of its own
object and to those of no other object. -/
theorem entriesUnder_setHelp (js : JavaScriptVM) (o f : String) (p : List String)
    (t : String) (obj : String) (hobj : obj ≠ "") :
    entriesUnder (setHelp js o f p t) obj
      = entriesUnder js obj ++
          (if o = obj then [(⟨o, f, p, t⟩ : HelpMsg)] else []) := by
  unfold setHelp entriesUnder
  by_cases ho : o = ""
  · have hne : ¬ ("" : String) = obj := fun hc => hobj hc.symm
    simp [ho, hne]
  · simp only [ho, if_false]
    cases hl : helpLookup js.help o with
    | some data =>
        by_cases hoo : o = obj
        · subst hoo
          simp [hl, helpLookup_update_self js.help o (data ++ [⟨o, f, p, t⟩]) (by simp [hl])]
        · simp [hl, hoo, helpLookup_update_other js.help o _ obj hoo]
    | none =>
        by_cases hoo : o = obj
        · subst hoo
          simp [hl, helpLookup_append, helpLookup]
        · simp [hl, hoo, helpLookup_append, helpLookup]
          cases helpLookup js.help obj <;> simp

/-- Entries accumulated under one object by a fold of `SetHelp` calls
are the starting entries followed by the messages of the calls naming
that object, in call order. -/
theorem entriesUnder_foldl (calls : List SetHelpCall) (js : JavaScriptVM)
    (obj : String) (hobj : obj ≠ "") :
    entriesUnder (calls.foldl (fun a c => setHelp a c.obj c.fn c.params c.text) js) obj
      = entriesUnder js obj ++ (calls.filter (fun c => c.obj = obj)).map msgOfCall := by
  induction calls generalizing js with
  | nil => simp
  | cons c rest ih =>
      rw [List.foldl_cons, ih]
      rw [entriesUnder_setHelp js c.obj c.fn c.params c.text obj hobj]
      by_cases hc : c.obj = obj
      · simp [List.filter_cons, hc, msgOfCall, List.append_assoc]
      · simp [List.filter_cons, hc]

/-- Claim C6 (confirmed): `SetHelp` with an empty object name is a
no-op; after any sequence of `SetHelp` calls on a fresh registry the
autocompletion term list is exactly as long as the total stored entry
count, and the entries under each object are the messages of the calls
naming that object, in registration order. -/
theorem c6_sethelp_registry_invariants :
    (∀ (js : JavaScriptVM) (f : String) (p : List String) (t : String),
      setHelp js "" f p t = js) ∧
    (∀ calls : List SetHelpCall,
      (applyCalls calls).autoCompleteTerms.length = totalEntries (applyCalls calls).help) ∧
    (∀ (calls : List SetHelpCall) (obj : String), obj ≠ "" →
      entriesUnder (applyCalls calls) obj
        = (calls.filter (fun c => c.obj = obj)).map msgOfCall) := by
  refine ⟨?_, ?_, ?_⟩
  · intro js f p t
    simp [setHelp]
  · intro calls
    exact foldl_terms_invariant calls newVM rfl
  · intro calls obj hobj
    have h := entriesUnder_foldl calls newVM obj hobj
    simpa [applyCalls, entriesUnder, newVM, helpLookup] using h

/-- Witness for claim C6: the sample registration sequence (two `os`
entries separated by an empty-named no-op call and followed by an `http`
entry) stores under `os` exactly its two `os` messages in call order. -/
theorem c6_sethelp_registry_invariants_witness :
    entriesUnder (applyCalls demoCalls) "os" =
      [⟨"os", "args", [], "command line arguments"⟩,
       ⟨"os", "exit", ["exitCode int"], "stop the program"⟩] :=
  (c6_sethelp_registry_invariants.2.2 demoCalls "os" (by decide)).trans (by decide)

/-! ### Claim theorems for the os capabilities -/

/-- Claim C7 (confirmed): `os.rmdir` on a path holding a plain file
returns the boolean `false` — not an error object — and leaves the
filesystem unchanged, and `os.remove` on a path holding a directory
returns the boolean `false` — not an error object — and leaves the
filesystem unchanged. -/
theorem c7_rmdir_remove_refusals :
    ∀ (fs : Fs) (p : String) (e : FsEntry), fsLookup fs p = some e →
    (e.kind = .file → osRmdir fs p = (.boolVal false, fs)) ∧
    (e.kind = .dir → osRemove fs p = (.boolVal false, fs)) := by
  intro fs p e h
  constructor
  · intro hk
    simp [osRmdir, h, hk]
  · intro hk
    simp [osRemove, h, hk]

/-- Witness for claim C7 on the concrete filesystem `fs0`: `rmdir` on
the plain file and `remove` on the directory both yield bare `false` and
change nothing. -/
theorem c7_rmdir_remove_refusals_witness :
    osRmdir fs0 "notes.txt" = (.boolVal false, fs0) ∧
    osRemove fs0 "archive" = (.boolVal false, fs0) :=
  ⟨(c7_rmdir_remove_refusals fs0 "notes.txt" ⟨.file, 644⟩ (by decide)).1 rfl,
   (c7_rmdir_remove_refusals fs0 "archive" ⟨.dir, 755⟩ (by decide)).2 rfl⟩

/-- Claim C8 (confirmed): the permission argument of `os.chmod`,
`os.mkdir` and `os.mkdirAll` is parsed in base 10 — the string `"0775"`
produces the mode with numeric value decimal 775, not octal — and an
argument that does not parse as a decimal number yields an error object
and leaves the filesystem unchanged for all three capabilities. -/
theorem c8_perms_parsed_base10 :
    parseUint10x32 "0775" = some 775 ∧
    (∀ (fs : Fs) (p : String) (e : FsEntry), fsLookup fs p = some e →
      osChmod fs p "0775" = (.boolVal true, fsUpdate fs p ⟨e.kind, 775⟩)) ∧
    (∀ (fs : Fs) (p : String), fsLookup fs p = none →
      osMkdir fs p "0775" = (.boolVal true, fs ++ [(p, ⟨.dir, 775⟩)])) ∧
    (∀ (fs : Fs) (p : String), fsLookup fs p = none →
      osMkdirAll fs p "0775" = (.boolVal true, fs ++ [(p, ⟨.dir, 775⟩)])) ∧
    (∀ (fs : Fs) (p s : String), parseUint10x32 s = none →
      osChmod fs p s = (.errObj, fs) ∧ osMkdir fs p s = (.errObj, fs) ∧
        osMkdirAll fs p s = (.errObj, fs)) := by
  have hparse : parseUint10x32 "0775" = some 775 := by decide
  refine ⟨hparse, ?_, ?_, ?_, ?_⟩
  · intro fs p e h
    simp [osChmod, h, hparse]
  · intro fs p h
    simp [osMkdir, h, hparse]
  · intro fs p h
    simp [osMkdirAll, h, hparse]
  · intro fs p s h
    refine ⟨?_, ?_, ?_⟩
    · cases hl : fsLookup fs p with
      | none => simp [osChmod, hl]
      | some e => simp [osChmod, hl, h]
    · simp [osMkdir, h]
    · simp [osMkdirAll, h]

/-- Witness for claim C8: on the concrete filesystem `fs0`, `chmod`
with `"0775"` sets decimal mode 775 on the file, `mkdir` with `"0775"`
creates a decimal-mode-775 directory, and the non-decimal argument
`"rwxr"` makes all three capabilities return an error object with `fs0`
unchanged. -/
theorem c8_perms_parsed_base10_witness :
    osChmod fs0 "notes.txt" "0775"
        = (.boolVal true, fsUpdate fs0 "notes.txt" ⟨.file, 775⟩) ∧
    osMkdir fs0 "newdir" "0775" = (.boolVal true, fs0 ++ [("newdir", ⟨.dir, 775⟩)]) ∧
    osChmod fs0 "notes.txt" "rwxr" = (.errObj, fs0) ∧
    osMkdir fs0 "newdir" "rwxr" = (.errObj, fs0) ∧
    osMkdirAll fs0 "newdir" "rwxr" = (.errObj, fs0) :=
  ⟨c8_perms_parsed_base10.2.1 fs0 "notes.txt" ⟨.file, 644⟩ (by decide),
   c8_perms_parsed_base10.2.2.1 fs0 "newdir" (by decide),
   (c8_perms_parsed_base10.2.2.2.2 fs0 "notes.txt" "rwxr" (by decide)).1,
   (c8_perms_parsed_base10.2.2.2.2 fs0 "newdir" "rwxr" (by decide)).2.1,
   (c8_perms_parsed_base10.2.2.2.2 fs0 "newdir" "rwxr" (by decide)).2.2⟩

/-- Claim C10 (refuted): the claim says every `os.exit` argument that
fails to parse as a decimal integer produces exit code 0.  Go `Atoi`
reports a failure for the decimal numeral `"99999999999999999999"` (it
overflows a 64-bit `int`) yet returns the clamped maximum beside the
error, and the closure discards the error, so the process terminates
with exit code `2 ^ 63 - 1`, not 0. -/
theorem c10_exit_code_counterexample :
    (goAtoi "99999999999999999999").2 = some .errRange ∧
    osExitCode ["99999999999999999999"] = 2 ^ 63 - 1 ∧
    ¬ osExitCode ["99999999999999999999"] = 0 := by
  decide

/-- The value half of `Atoi` is `0` whenever the error half reports a
syntax failure. -/
theorem atoiSigned_syn_val (neg : Bool) (ds : List Char)
    (h : (atoiSigned neg ds).2 = some .errSyn) : (atoiSigned neg ds).1 = 0 := by
  unfold atoiSigned at h ⊢
  cases hd : digitsVal ds with
  | none => simp [hd]
  | some n =>
      rw [hd] at h
      cases neg <;> simp at h <;> split_ifs at h <;> simp_all

/-- Claim C10 as amended: `os.exit` always terminates, never yields an
error object (its model returns only an exit code), and the exit code is
whatever value `Atoi` returned beside the discarded error — `0` exactly
for syntactically invalid arguments, the clamped 64-bit extreme for
out-of-range decimal arguments. -/
theorem c10_exit_code_amended :
    ∀ (s : String) (rest : List String),
    osExitCode (s :: rest) = (goAtoi s).1 ∧
    ((goAtoi s).2 = some .errSyn → osExitCode (s :: rest) = 0) := by
  intro s rest
  refine ⟨rfl, ?_⟩
  intro h
  show (goAtoi s).1 = 0
  unfold goAtoi at h ⊢
  cases hdata : s.data with
  | nil =>
      rw [hdata] at h
      exact atoiSigned_syn_val false [] h
  | cons c cs =>
      rw [hdata] at h
      have h2 : (if c = '-' then atoiSigned true cs
          else if c = '+' then atoiSigned false cs
          else atoiSigned false (c :: cs)).2 = some .errSyn := h
      show (if c = '-' then atoiSigned true cs
          else if c = '+' then atoiSigned false cs
          else atoiSigned false (c :: cs)).1 = 0
      by_cases hneg : c = '-'
      · rw [if_pos hneg] at h2 ⊢
        exact atoiSigned_syn_val true cs h2
      · rw [if_neg hneg] at h2 ⊢
        by_cases hpos : c = '+'
        · rw [if_pos hpos] at h2 ⊢
          exact atoiSigned_syn_val false cs h2
        · rw [if_neg hpos] at h2 ⊢
          exact atoiSigned_syn_val false (c :: cs) h2

/-- Witness for the amended claim C10: the syntactically invalid
argument `"abc"` produces exit code 0. -/
theorem c10_exit_code_amended_witness :
    osExitCode ["abc"] = 0 :=
  (c10_exit_code_amended "abc" []).2 (by decide)

/-! ### Claim theorems for the tabular bridge -/

/-- A name listed among the sheet names has a sheet to look up. -/
theorem tabLookup_isSome_of_mem (wb : Tabular) (k : String)
    (h : k ∈ sheetNames wb) : (tabLookup wb k).isSome := by
  induction wb with
  | nil => simp [sheetNames] at h
  | cons kv rest ih =>
      obtain ⟨key, rows⟩ := kv
      by_cases hk : key = k
      · simp [tabLookup, hk]
      · simp [sheetNames] at h
        rcases h with h | h
        · exact absurd h.symm hk
        · simpa [tabLookup, hk] using ih (by simpa [sheetNames] using h)

/-- Writing along an iteration order whose every key is present produces
the sheets in exactly that order. -/
theorem xlsxWrite_names (wb : Tabular) (order : List String)
    (h : ∀ k ∈ order, (tabLookup wb k).isSome) :
    sheetNames (xlsxWrite order wb) = order := by
  induction order with
  | nil => simp [xlsxWrite, sheetNames]
  | cons k rest ih =>
      obtain ⟨rows, hr⟩ := Option.isSome_iff_exists.mp (h k (by simp))
      have htail : sheetNames (xlsxWrite rest wb) = rest :=
        ih (fun x hx => h x (by simp [hx]))
      simpa [xlsxWrite, sheetNames, List.filterMap_cons, hr]
        using htail

/-- Claim C2 (refuted): the claim says reading a two-sheet workbook,
writing the value back, and reading the written file always yields the
sheet names in the original order.  The write ranges over the exported
Go map, whose iteration order the Go language does not fix: under the
legal iteration order Sheet2-before-Sheet1, the round trip of `wb2`
yields the names reversed. -/
theorem c2_roundtrip_order_counterexample :
    List.Perm ["Sheet2", "Sheet1"] (sheetNames (xlsxRead wb2)) ∧
    sheetNames (xlsxRead (xlsxWrite ["Sheet2", "Sheet1"] (xlsxRead wb2)))
      = ["Sheet2", "Sheet1"] ∧
    sheetNames (xlsxRead (xlsxWrite ["Sheet2", "Sheet1"] (xlsxRead wb2)))
      ≠ ["Sheet1", "Sheet2"] :=
  ⟨List.Perm.swap "Sheet1" "Sheet2" [], by decide, by decide⟩

/-- Claim C2 as amended: the tabular round trip preserves the sheet-name
multiset but not the order — for every workbook and every iteration
order the runtime may pick for the exported map (any permutation of the
sheet names), the final read lists exactly that iteration order, a
permutation of the original names. -/
theorem c2_roundtrip_names_amended :
    ∀ (wb : Tabular) (order : List String),
    List.Perm order (sheetNames (xlsxRead wb)) →
    sheetNames (xlsxRead (xlsxWrite order (xlsxRead wb))) = order ∧
    List.Perm (sheetNames (xlsxRead (xlsxWrite order (xlsxRead wb)))) (sheetNames wb) := by
  intro wb order hperm
  have hmem : ∀ k ∈ order, (tabLookup wb k).isSome := fun k hk =>
    tabLookup_isSome_of_mem wb k (hperm.subset hk)
  have hnames : sheetNames (xlsxWrite order wb) = order := xlsxWrite_names wb order hmem
  refine ⟨hnames, ?_⟩
  rw [show sheetNames (xlsxRead (xlsxWrite order (xlsxRead wb))) = order from hnames]
  exact hperm

/-- Witness for the amended claim C2 at the two-sheet workbook `wb2` and
the reversed iteration order. -/
theorem c2_roundtrip_names_amended_witness :
    sheetNames (xlsxRead (xlsxWrite ["Sheet2", "Sheet1"] (xlsxRead wb2)))
      = ["Sheet2", "Sheet1"] ∧
    List.Perm (sheetNames (xlsxRead (xlsxWrite ["Sheet2", "Sheet1"] (xlsxRead wb2))))
      (sheetNames wb2) :=
  c2_roundtrip_names_amended wb2 ["Sheet2", "Sheet1"] (List.Perm.swap "Sheet1" "Sheet2" [])

/-! ### Claim theorem for `ToStruct` -/

/-- Integer elements encoded as JSON numbers decode back to the same
integers. -/
theorem intListOf_map (l : List Int) :
    intListOf (l.map (fun n : Int => JsonVal.jnum (n : ℚ))) = some l := by
  induction l with
  | nil => rfl
  | cons a as ih => simp [intListOf, asInt, Rat.den_intCast, Rat.num_intCast, ih]

/-- Claim C4 (confirmed): for every host record of the claimed shape —
integer, string, float, boolean, and integer-array fields — exporting
the guest value that denotes it and running it through the canonical
interchange encoding into a record of the same shape reconstructs a
value equal to the original. -/
theorem c4_tostruct_roundtrip :
    ∀ r : SampleRecord, toStructSample (engineValueOf r) = some r := by
  intro r
  simp [toStructSample, engineValueOf, objLookup, asInt, asStr, asNum, asBool, asIntList,
    intListOf_map, Rat.den_intCast, Rat.num_intCast]

end Ostdlib
